/-
  Verification of the bingry_blockchain ledger core.

  Shallow embedding of src/block.rs, src/blockchain.rs, src/transaction.rs and
  the AddTransaction branch of src/server.rs.  The sha256 crate's digest
  function is implemented concretely below (hex of SHA-256 over the UTF-8
  bytes; all strings hashed in this development are ASCII, where a character's
  code point is its byte).  The k256 ECDSA verification pipeline is external
  library code and is modelled as an abstract boolean function; every theorem
  that touches it is quantified over that function.
-/
import Mathlib

/-- Rotate a 32-bit word right by `n`. -/
def rotr32 (n x : Nat) : Nat :=
  ((x >>> n) ||| (x <<< (32 - n))) &&& 0xffffffff

/-- Word lookup with default 0. -/
def wordAt (w : List Nat) (i : Nat) : Nat := w.getD i 0

/-- SHA-256 round constants. -/
def sha256K : List Nat :=
  [1116352408, 1899447441, 3049323471, 3921009573, 961987163, 1508970993,
   2453635748, 2870763221, 3624381080, 310598401, 607225278, 1426881987,
   1925078388, 2162078206, 2614888103, 3248222580, 3835390401, 4022224774,
   264347078, 604807628, 770255983, 1249150122, 1555081692, 1996064986,
   2554220882, 2821834349, 2952996808, 3210313671, 3336571891, 3584528711,
   113926993, 338241895, 666307205, 773529912, 1294757372, 1396182291,
   1695183700, 1986661051, 2177026350, 2456956037, 2730485921, 2820302411,
   3259730800, 3345764771, 3516065817, 3600352804, 4094571909, 275423344,
   430227734, 506948616, 659060556, 883997877, 958139571, 1322822218,
   1537002063, 1747873779, 1955562222, 2024104815, 2227730452, 2361852424,
   2428436474, 2756734187, 3204031479, 3329325298]

/-- SHA-256 initial hash state. -/
def sha256H0 : List Nat :=
  [1779033703, 3144134277, 1013904242, 2773480762,
   1359893119, 2600822924, 528734635, 1541459225]

/-- Extend the 16-word message block to the 64-word schedule (`k` extension steps). -/
def extendW : Nat → List Nat → List Nat
  | 0, w => w
  | k + 1, w =>
    let i := w.length
    let x15 := wordAt w (i - 15)
    let x2 := wordAt w (i - 2)
    let s0 := rotr32 7 x15 ^^^ rotr32 18 x15 ^^^ (x15 >>> 3)
    let s1 := rotr32 17 x2 ^^^ rotr32 19 x2 ^^^ (x2 >>> 10)
    extendW k (w ++ [(wordAt w (i - 16) + s0 + wordAt w (i - 7) + s1) &&& 0xffffffff])

/-- One SHA-256 compression round on the 8-word working state. -/
def sha256Round (w : List Nat) (i : Nat) (st : List Nat) : List Nat :=
  let a := wordAt st 0
  let b := wordAt st 1
  let c := wordAt st 2
  let d := wordAt st 3
  let e := wordAt st 4
  let f := wordAt st 5
  let g := wordAt st 6
  let h := wordAt st 7
  let s1 := rotr32 6 e ^^^ rotr32 11 e ^^^ rotr32 25 e
  let ch := (e &&& f) ^^^ ((e ^^^ 0xffffffff) &&& g)
  let t1 := (h + s1 + ch + wordAt sha256K i + wordAt w i) &&& 0xffffffff
  let s0 := rotr32 2 a ^^^ rotr32 13 a ^^^ rotr32 22 a
  let mj := (a &&& b) ^^^ (a &&& c) ^^^ (b &&& c)
  let t2 := (s0 + mj) &&& 0xffffffff
  [(t1 + t2) &&& 0xffffffff, a, b, c, (d + t1) &&& 0xffffffff, e, f, g]

/-- Run `n` compression rounds starting at round index `i`. -/
def sha256Rounds : Nat → Nat → List Nat → List Nat → List Nat
  | 0, _, _, st => st
  | n + 1, i, w, st => sha256Rounds n (i + 1) w (sha256Round w i st)

/-- Big-endian bytes to 32-bit words. -/
def bytesToWords : List Nat → List Nat
  | b0 :: b1 :: b2 :: b3 :: rest =>
    (((b0 * 256 + b1) * 256 + b2) * 256 + b3) :: bytesToWords rest
  | _ => []

/-- Process one 64-byte chunk, updating the 8-word hash state. -/
def sha256Chunk (h : List Nat) (chunk : List Nat) : List Nat :=
  let w := extendW 48 (bytesToWords chunk)
  let st := sha256Rounds 64 0 w h
  (List.zip h st).map (fun p => (p.1 + p.2) &&& 0xffffffff)

/-- Split a byte list into 64-byte chunks (fuel bounds the recursion structurally). -/
def splitChunksFuel : Nat → List Nat → List (List Nat)
  | 0, _ => []
  | _, [] => []
  | fuel + 1, x :: rest => (x :: rest.take 63) :: splitChunksFuel fuel (rest.drop 63)

/-- Split a byte list into 64-byte chunks. -/
def splitChunks (l : List Nat) : List (List Nat) := splitChunksFuel l.length l

/-- `n` rendered as `k` big-endian bytes. -/
def natToBytesBE (n : Nat) : Nat → List Nat
  | 0 => []
  | k + 1 => ((n >>> (8 * k)) &&& 0xff) :: natToBytesBE n k

/-- SHA-256 of a byte list, as a 32-byte list. -/
def sha256Bytes (msg : List Nat) : List Nat :=
  let padded := msg ++ 0x80 :: List.replicate ((119 - msg.length % 64) % 64) 0
    ++ natToBytesBE (msg.length * 8) 8
  let hs := (splitChunks padded).foldl sha256Chunk sha256H0
  hs.foldr (fun w acc => natToBytesBE w 4 ++ acc) []

/-- Hex digit for a value below 16. -/
def hexDigitChar (n : Nat) : Char :=
  if n < 10 then Char.ofNat (48 + n) else Char.ofNat (87 + n)

/-- Lowercase hex of one byte. -/
def byteToHex (b : Nat) : String :=
  String.mk [hexDigitChar (b / 16), hexDigitChar (b % 16)]

/-- Lowercase hex of a byte list. -/
def bytesToHex (bs : List Nat) : String :=
  String.join (bs.map byteToHex)

/-- Bytes of an ASCII string (code points; for ASCII input these are the UTF-8 bytes). -/
def strBytes (s : String) : List Nat := s.data.map (fun c => c.toNat)

/-- The sha256 crate's `digest` on strings: lowercase hex of the SHA-256 of the bytes. -/
def sha256hex (s : String) : String := bytesToHex (sha256Bytes (strBytes s))

/-- The coinbase sentinel sender address used by the ledger's reward transactions. -/
def coinbaseSender : String := "coinbase_reward"

/-- The sentinel stored in the signature field of a signed coinbase transaction. -/
def coinbaseSig : String := "UNSIGNED_COINBASE_TX"

/-- `Transaction` from src/transaction.rs.  `amount` is a `u64` (modelled as `Nat`,
saturating arithmetic on it is made explicit where the source uses it);
`timestamp` is an `i64` Unix timestamp. -/
structure Transaction where
  sender : String
  recipient : String
  amount : Nat
  timestamp : Int
  public_key : String
  signature : String
deriving Repr, DecidableEq

/-- `Transaction::new`: unsigned transaction with the given timestamp
(the source reads the clock; the embedding passes the time in). -/
def Transaction.new (sender recipient : String) (amount : Nat) (timestamp : Int) : Transaction :=
  { sender := sender, recipient := recipient, amount := amount, timestamp := timestamp,
    public_key := "", signature := "" }

/-- `Transaction::calculate_hash_for_signing`: digest of the concatenation of
sender, recipient, amount and timestamp in their display forms. -/
def Transaction.calculate_hash_for_signing (digest : String → String) (tx : Transaction) : String :=
  digest (tx.sender ++ tx.recipient ++ toString tx.amount ++ toString tx.timestamp)

/-- `Transaction::sign`.  The coinbase path stores the given string as
`public_key` and the sentinel as `signature`, with no cryptography.  The
ordinary path signs the pre-hashed signing hash with the caller's key;
that k256 library call is modelled by the abstract `signFn`. -/
def Transaction.sign (digest : String → String) (signFn : String → String)
    (tx : Transaction) (public_key_hex : String) : Transaction :=
  if tx.sender == coinbaseSender then
    { tx with public_key := public_key_hex, signature := coinbaseSig }
  else
    { tx with signature := signFn (Transaction.calculate_hash_for_signing digest tx),
              public_key := public_key_hex }

/-- `Transaction::is_valid`.  The coinbase branch is fully concrete.  For an
ordinary transaction the structural checks are concrete and in source order;
the tail of the function (hex-decoding `public_key` and `signature`, SEC1
point parsing, the 64-byte signature length check and the ECDSA
`verify_prehash` call) is external library code, modelled by the abstract
`crypto : public_key → signature → signing_hash → Bool`. -/
def Transaction.is_valid (crypto : String → String → String → Bool)
    (digest : String → String) (tx : Transaction) : Bool :=
  if tx.sender == coinbaseSender then
    tx.signature == coinbaseSig && !(tx.recipient == "") && tx.amount != 0
  else if tx.public_key == "" || tx.signature == "" then false
  else if tx.amount == 0 then false
  else if tx.sender == "" || tx.recipient == "" then false
  else if tx.sender != tx.public_key then false
  else crypto tx.public_key tx.signature (Transaction.calculate_hash_for_signing digest tx)

/-- `Block` from src/block.rs. -/
structure Block where
  index : Nat
  timestamp : Int
  transactions : List Transaction
  previous_hash : String
  hash : String
  nonce : Nat
deriving Repr, DecidableEq

/-- `Block::new`: fresh block with empty hash and zero nonce. -/
def Block.new (index : Nat) (previous_hash : String) (transactions : List Transaction)
    (timestamp : Int) : Block :=
  { index := index, timestamp := timestamp, transactions := transactions,
    previous_hash := previous_hash, hash := "", nonce := 0 }

/-- `Block::calculate_hash`: digest of index, timestamp, previous_hash, nonce and
every transaction's signing hash, concatenated in that order. -/
def Block.calculate_hash (digest : String → String) (b : Block) : String :=
  digest (toString b.index ++ toString b.timestamp ++ b.previous_hash ++ toString b.nonce
    ++ String.join (b.transactions.map (Transaction.calculate_hash_for_signing digest)))

/-- The difficulty target string `"0".repeat(difficulty)`. -/
def difficultyTarget (difficulty : Nat) : String := String.mk (List.replicate difficulty '0')

/-- `String::starts_with` on the character level. -/
def strStarts (s t : String) : Bool := t.data.isPrefixOf s.data

/-- One iteration of the mining loop body: increment nonce, recompute hash. -/
def Block.mineStep (digest : String → String) (b : Block) : Block :=
  let b1 := { b with nonce := b.nonce + 1 }
  { b1 with hash := Block.calculate_hash digest b1 }

/-- `Block::mine_block`: the while loop is modelled with explicit fuel; `some`
is the loop exiting (hash meets the target), `none` is fuel exhaustion. -/
def Block.mineBlockFuel (digest : String → String) (difficulty : Nat) :
    Nat → Block → Option Block
  | 0, b => if strStarts b.hash (difficultyTarget difficulty) then some b else none
  | fuel + 1, b =>
    if strStarts b.hash (difficultyTarget difficulty) then some b
    else Block.mineBlockFuel digest difficulty fuel (Block.mineStep digest b)

/-- `Blockchain` from src/blockchain.rs. -/
structure Blockchain where
  chain : List Block
  difficulty : Nat
  pending_transactions : List Transaction
  mining_reward : Nat
deriving Repr, DecidableEq

/-- `Blockchain::get_latest_block`. -/
def Blockchain.get_latest_block (bc : Blockchain) : Option Block := bc.chain.getLast?

/-- `Blockchain::create_genesis_block`: mine a fresh block with index 0,
previous hash "0" and no transactions, then store `calculate_hash()` in it. -/
def Blockchain.create_genesis_block (digest : String → String) (fuel difficulty : Nat)
    (ts : Int) : Option Block :=
  (Block.mineBlockFuel digest difficulty fuel (Block.new 0 "0" [] ts)).map
    (fun g => { g with hash := Block.calculate_hash digest g })

/-- `Blockchain::new`: chain holding only the genesis block, empty pending pool,
mining reward 100. -/
def Blockchain.new (digest : String → String) (fuel difficulty : Nat) (ts : Int) :
    Option Blockchain :=
  (Blockchain.create_genesis_block digest fuel difficulty ts).map
    (fun g => { chain := [g], difficulty := difficulty,
                pending_transactions := [], mining_reward := 100 })

/-- `Blockchain::add_block`: overwrite the block's previous hash with the tail's
hash, mine it at the ledger difficulty, store its recomputed hash, append.
`none` covers the `unwrap` on an empty chain and fuel exhaustion. -/
def Blockchain.add_block (digest : String → String) (fuel : Nat) (bc : Blockchain)
    (new_block : Block) : Option Blockchain :=
  match bc.get_latest_block with
  | none => none
  | some latest =>
    (Block.mineBlockFuel digest bc.difficulty fuel
        { new_block with previous_hash := latest.hash }).map
      (fun mined =>
        { bc with chain := bc.chain ++ [{ mined with hash := Block.calculate_hash digest mined }] })

/-- `Blockchain::add_transaction`: push onto the pending pool iff `is_valid`. -/
def Blockchain.add_transaction (crypto : String → String → String → Bool)
    (digest : String → String) (bc : Blockchain) (tx : Transaction) : Blockchain :=
  if Transaction.is_valid crypto digest tx then
    { bc with pending_transactions := bc.pending_transactions ++ [tx] }
  else bc

/-- `Blockchain::mine_pending_transactions`: no-op on an empty pool; otherwise
build `[reward_tx] ++ drained pending`, drain the pool, and `add_block` a fresh
block carrying them.  The reward transaction is built with `Transaction::new`
exactly as in the source (in particular it is never signed there). -/
def Blockchain.mine_pending_transactions (digest : String → String) (fuel : Nat)
    (bc : Blockchain) (miner_address : String) (rewardTs blockTs : Int) : Option Blockchain :=
  if bc.pending_transactions.isEmpty then some bc
  else
    let reward_tx := Transaction.new coinbaseSender miner_address bc.mining_reward rewardTs
    let transactions_to_mine := reward_tx :: bc.pending_transactions
    let new_block_index := bc.chain.length
    match bc.get_latest_block with
    | none => none
    | some latest =>
      Blockchain.add_block digest fuel { bc with pending_transactions := [] }
        (Block.new new_block_index latest.hash transactions_to_mine blockTs)

/-- `u64::saturating_sub` on `Nat` (clamps at zero, as `Nat` subtraction does). -/
def saturatingSub (a b : Nat) : Nat := a - b

/-- `u64::saturating_add` (clamps at `2^64 - 1`). -/
def saturatingAdd (a b : Nat) : Nat := min (a + b) (2 ^ 64 - 1)

/-- The per-transaction balance update in `get_balance_of_address`: subtract on a
non-coinbase matching sender, then add on a matching recipient. -/
def balanceStep (address : String) (balance : Nat) (tx : Transaction) : Nat :=
  let b1 := if tx.sender == address && tx.sender != coinbaseSender
    then saturatingSub balance tx.amount else balance
  if tx.recipient == address then saturatingAdd b1 tx.amount else b1

/-- `Blockchain::get_balance_of_address`: replay every transaction of every
block in storage order starting from zero. -/
def Blockchain.get_balance_of_address (bc : Blockchain) (address : String) : Nat :=
  bc.chain.foldl (fun bal block => block.transactions.foldl (balanceStep address) bal) 0

/-- The four checks `is_chain_valid` makes on a non-genesis block against its
stored predecessor, in source order, short-circuiting. -/
def blockOk (crypto : String → String → String → Bool) (digest : String → String)
    (difficulty : Nat) (previous_block current_block : Block) : Bool :=
  current_block.hash == Block.calculate_hash digest current_block &&
  current_block.previous_hash == previous_block.hash &&
  strStarts current_block.hash (difficultyTarget difficulty) &&
  current_block.transactions.all (Transaction.is_valid crypto digest)

/-- The scan of `is_chain_valid` from index 1 upward, carrying the predecessor. -/
def chainOk (crypto : String → String → String → Bool) (digest : String → String)
    (difficulty : Nat) : Block → List Block → Bool
  | _, [] => true
  | prev, cur :: rest =>
    blockOk crypto digest difficulty prev cur && chainOk crypto digest difficulty cur rest

/-- `Blockchain::is_chain_valid`. -/
def Blockchain.is_chain_valid (crypto : String → String → String → Bool)
    (digest : String → String) (bc : Blockchain) : Bool :=
  match bc.chain with
  | [] => true
  | g :: rest => chainOk crypto digest bc.difficulty g rest

/-- The session handler's reply shape for `AddTransaction` (src/server.rs):
only the `Success`/`Error` variant matters to the claims. -/
inductive ServerReply where
  | success : ServerReply
  | error : ServerReply
deriving Repr, DecidableEq

/-- The `Request::AddTransaction` arm of `handle_client`: reject with `Error`
when the sender's balance is below the requested amount, otherwise call
`add_transaction` and reply `Success`. -/
def handle_add_transaction (crypto : String → String → String → Bool)
    (digest : String → String) (bc : Blockchain) (tx : Transaction) :
    Blockchain × ServerReply :=
  if bc.get_balance_of_address tx.sender < tx.amount then (bc, ServerReply.error)
  else (Blockchain.add_transaction crypto digest bc tx, ServerReply.success)

/-- A concrete stand-in for the ECDSA pipeline that rejects everything;
used only to instantiate crypto-generic theorems at concrete inputs
(all concrete scenarios below involve only coinbase-sentinel transactions,
whose validity never consults it). -/
def noVerify : String → String → String → Bool := fun _ _ _ => false

/-- A trivial concrete digest used only to instantiate digest-generic theorems
at concrete inputs. -/
def emptyDigest : String → String := fun _ => ""

/-- A valid coinbase-sentinel transaction used as the pending transaction of the
concrete mining scenario (its validity never consults the ECDSA model). -/
def txR : Transaction :=
  { sender := coinbaseSender, recipient := "alice", amount := 5, timestamp := 0,
    public_key := "", signature := coinbaseSig }

/-- Concrete run of the real code at difficulty 0 (so the mining loop exits at
once and zero fuel suffices): construct the ledger, queue the valid pending
transaction `txR`, and mine. -/
def scenarioMined : Option Blockchain :=
  (Blockchain.new sha256hex 0 0 0).bind (fun bc0 =>
    Blockchain.mine_pending_transactions sha256hex 0
      (Blockchain.add_transaction noVerify sha256hex bc0 txR) "miner" 0 0)

set_option maxRecDepth 1000000 in
/-- Claim C1: `is_chain_valid` is true immediately after construction, but after
one `mine_pending_transactions` call whose consumed pending transaction is
valid, it returns false: the reward transaction is created by
`Transaction::new` and never signed, so its empty signature fails the coinbase
branch of `is_valid` and check (4) of `is_chain_valid` rejects the mined
block.  This contradicts the claim and the code's own validator. -/
theorem mined_reward_breaks_chain_validity :
    Transaction.is_valid noVerify sha256hex txR = true ∧
    (Blockchain.new sha256hex 0 0 0).map
      (fun bc0 => bc0.is_chain_valid noVerify sha256hex) = some true ∧
    scenarioMined.map (Blockchain.is_chain_valid noVerify sha256hex) = some false := by
  decide

set_option maxRecDepth 1000000 in
/-- Claim C2: in the block produced by `mine_pending_transactions`, the reward
transaction comes first with amount `mining_reward = 100` followed by the
drained pending transactions in order, `previous_hash` is the old tail's hash,
the pool is left empty — but the reward transaction's signature field is the
empty string, not the sentinel `"UNSIGNED_COINBASE_TX"`: the code never calls
`Transaction::sign` on it. -/
theorem reward_transaction_left_unsigned :
    scenarioMined.map (fun bc => (bc.chain.getLastD (Block.new 0 "" [] 0)).transactions) =
      some [{ sender := coinbaseSender, recipient := "miner", amount := 100,
              timestamp := 0, public_key := "", signature := "" }, txR] ∧
    scenarioMined.map Blockchain.pending_transactions = some [] ∧
    scenarioMined.map (fun bc =>
      match bc.chain with
      | [g, b] => decide (b.previous_hash = g.hash)
      | _ => false) = some true ∧
    "" ≠ coinbaseSig := by
  decide

/-- Helper: `calculate_hash` never reads the stored `hash` field. -/
theorem calculate_hash_hash_irrel (digest : String → String) (b : Block) (h : String) :
    Block.calculate_hash digest { b with hash := h } = Block.calculate_hash digest b := rfl

/-- Helper: a block returned by the mining loop meets the difficulty target. -/
theorem mineBlockFuel_target (digest : String → String) (difficulty : Nat) :
    ∀ (fuel : Nat) (b b' : Block), Block.mineBlockFuel digest difficulty fuel b = some b' →
      strStarts b'.hash (difficultyTarget difficulty) = true := by
  intro fuel
  induction fuel with
  | zero =>
    intro b b' h
    by_cases hc : strStarts b.hash (difficultyTarget difficulty) = true
    · simp [Block.mineBlockFuel, hc] at h
      subst h; exact hc
    · simp [Block.mineBlockFuel, hc] at h
  | succ n ih =>
    intro b b' h
    by_cases hc : strStarts b.hash (difficultyTarget difficulty) = true
    · simp [Block.mineBlockFuel, hc] at h
      subst h; exact hc
    · simp [Block.mineBlockFuel, hc] at h
      exact ih _ _ h

/-- Helper: mining preserves the invariant that the stored hash is the hash of
the block's current fields. -/
theorem mineBlockFuel_inv (digest : String → String) (difficulty : Nat) :
    ∀ (fuel : Nat) (b b' : Block), b.hash = Block.calculate_hash digest b →
      Block.mineBlockFuel digest difficulty fuel b = some b' →
      b'.hash = Block.calculate_hash digest b' := by
  intro fuel
  induction fuel with
  | zero =>
    intro b b' hb h
    by_cases hc : strStarts b.hash (difficultyTarget difficulty) = true
    · simp [Block.mineBlockFuel, hc] at h; subst h; exact hb
    · simp [Block.mineBlockFuel, hc] at h
  | succ n ih =>
    intro b b' hb h
    by_cases hc : strStarts b.hash (difficultyTarget difficulty) = true
    · simp [Block.mineBlockFuel, hc] at h; subst h; exact hb
    · simp [Block.mineBlockFuel, hc] at h
      exact ih (Block.mineStep digest b) b' rfl h

/-- Claim C3 (amended): whenever `mine_block(d)` returns, the hash meets the
difficulty target (at least `d` leading zero hex characters); and if the
block's initial hash did not already meet the target — so the search loop ran
at least once — the returned hash equals `calculate_hash()` recomputed on the
final field values. -/
theorem mine_block_post (digest : String → String) (difficulty fuel : Nat) (b b' : Block)
    (h : Block.mineBlockFuel digest difficulty fuel b = some b') :
    strStarts b'.hash (difficultyTarget difficulty) = true ∧
    (strStarts b.hash (difficultyTarget difficulty) = false →
      b'.hash = Block.calculate_hash digest b') := by
  refine ⟨mineBlockFuel_target digest difficulty fuel b b' h, fun hinit => ?_⟩
  cases fuel with
  | zero => simp [Block.mineBlockFuel, hinit] at h
  | succ n =>
    simp [Block.mineBlockFuel, hinit] at h
    exact mineBlockFuel_inv digest difficulty n (Block.mineStep digest b) b' rfl h

/-- Witness for `mine_block_post` at difficulty 1 on a fresh block, with a
concrete digest returning `"0"`. -/
theorem mine_block_post_witness :
    strStarts (Block.mk 0 0 [] "0" "0" 1).hash (difficultyTarget 1) = true ∧
    (strStarts (Block.new 0 "0" [] 0).hash (difficultyTarget 1) = false →
      (Block.mk 0 0 [] "0" "0" 1).hash =
        Block.calculate_hash (fun _ => "0") (Block.mk 0 0 [] "0" "0" 1)) :=
  mine_block_post (fun _ => "0") 1 1 (Block.new 0 "0" [] 0) (Block.mk 0 0 [] "0" "0" 1)
    (by decide)

set_option maxRecDepth 1000000 in
/-- Claim C3 counterexample: at difficulty 0 the mining loop's guard is
immediately satisfied, so `mine_block(0)` on a fresh block returns without ever
computing a hash; the stored hash stays the empty string, which is not
`calculate_hash()` of the block's final fields. -/
theorem mine_zero_difficulty_stale_hash :
    Block.mineBlockFuel sha256hex 0 0 (Block.new 0 "0" [] 0) = some (Block.new 0 "0" [] 0) ∧
    (Block.new 0 "0" [] 0).hash ≠ Block.calculate_hash sha256hex (Block.new 0 "0" [] 0) := by
  decide

/-- Claim C4 (amended): for every transaction whose sender is not the coinbase
sentinel, `sender != public_key` implies `is_valid()` is false, whatever the
ECDSA model does. -/
theorem sender_key_mismatch_invalid (crypto : String → String → String → Bool)
    (digest : String → String) (tx : Transaction)
    (hcb : tx.sender ≠ coinbaseSender) (hpk : tx.sender ≠ tx.public_key) :
    Transaction.is_valid crypto digest tx = false := by
  simp [Transaction.is_valid, hcb, hpk]

/-- Witness for `sender_key_mismatch_invalid` on a concrete ordinary
transaction whose sender differs from its public key. -/
theorem sender_key_mismatch_invalid_witness :
    Transaction.is_valid noVerify emptyDigest (Transaction.mk "a" "b" 1 0 "pk" "sig") = false :=
  sender_key_mismatch_invalid noVerify emptyDigest (Transaction.mk "a" "b" 1 0 "pk" "sig")
    (by decide) (by decide)

/-- Claim C4 counterexample: a coinbase-sentinel transaction whose
`public_key` differs from its `sender` is still accepted by `is_valid` — the
coinbase branch never looks at `public_key`, so the claim fails for
coinbase-sentinel transactions. -/
theorem coinbase_valid_with_mismatched_key :
    (Transaction.mk coinbaseSender "m" 1 0 "x" coinbaseSig).sender ≠
      (Transaction.mk coinbaseSender "m" 1 0 "x" coinbaseSig).public_key ∧
    Transaction.is_valid noVerify sha256hex
      (Transaction.mk coinbaseSender "m" 1 0 "x" coinbaseSig) = true := by
  decide

/-- Modelled from the spec's wording of the balance rule: the same per-transaction
update written with propositional conditions, used as the specification side of
the replay claim. -/
def specBalanceStep (address : String) (balance : Nat) (tx : Transaction) : Nat :=
  let afterSend := if tx.sender = address ∧ tx.sender ≠ coinbaseSender
    then saturatingSub balance tx.amount else balance
  if tx.recipient = address then saturatingAdd afterSend tx.amount else afterSend

/-- Specification-side balance: one flat fold over all transactions of all
blocks, in chain order then storage order, starting from 0. -/
def specBalance (bc : Blockchain) (address : String) : Nat :=
  ((bc.chain.map Block.transactions).flatten).foldl (specBalanceStep address) 0

/-- Helper: the implementation's update agrees with the specification's. -/
theorem balanceStep_eq_spec (address : String) (balance : Nat) (tx : Transaction) :
    balanceStep address balance tx = specBalanceStep address balance tx := by
  by_cases h1 : tx.sender = address <;> by_cases h2 : tx.sender = coinbaseSender <;>
    by_cases h3 : tx.recipient = address <;>
      simp [balanceStep, specBalanceStep, h1, h2, h3]

/-- Helper: the balance update never exceeds `u64::MAX`. -/
theorem balanceStep_le (address : String) (balance : Nat) (tx : Transaction)
    (h : balance ≤ 2 ^ 64 - 1) : balanceStep address balance tx ≤ 2 ^ 64 - 1 := by
  simp only [balanceStep, saturatingSub, saturatingAdd]
  split
  · exact min_le_right _ _
  · split
    · exact le_trans (Nat.sub_le _ _) h
    · exact h

/-- Helper: folding the balance update over a transaction list keeps the bound. -/
theorem foldl_balanceStep_le (address : String) :
    ∀ (l : List Transaction) (balance : Nat), balance ≤ 2 ^ 64 - 1 →
      l.foldl (balanceStep address) balance ≤ 2 ^ 64 - 1 := by
  intro l
  induction l with
  | nil => intro balance h; simpa using h
  | cons t ts ih => intro balance h; exact ih _ (balanceStep_le address balance t h)

/-- Helper: folding over the whole chain keeps the bound. -/
theorem chain_foldl_balance_le (address : String) :
    ∀ (blocks : List Block) (balance : Nat), balance ≤ 2 ^ 64 - 1 →
      blocks.foldl (fun bal block => block.transactions.foldl (balanceStep address) bal)
        balance ≤ 2 ^ 64 - 1 := by
  intro blocks
  induction blocks with
  | nil => intro balance h; simpa using h
  | cons b bs ih =>
    intro balance h
    exact ih _ (foldl_balanceStep_le address b.transactions balance h)

/-- Claim C5: `get_balance_of_address` equals the specification's flat fold over
all blocks in chain order and all transactions in storage order, starting from
0, with saturating subtraction and addition; and the result never exceeds the
unsigned 64-bit bound (the saturating operations clamp, never wrap or panic). -/
theorem get_balance_replay_spec (bc : Blockchain) (address : String) :
    Blockchain.get_balance_of_address bc address = specBalance bc address ∧
    Blockchain.get_balance_of_address bc address ≤ 2 ^ 64 - 1 := by
  constructor
  · have hstep : balanceStep address = specBalanceStep address :=
      funext (fun balance => funext (fun tx => balanceStep_eq_spec address balance tx))
    simp only [Blockchain.get_balance_of_address, specBalance, List.foldl_flatten,
      List.foldl_map, hstep]
  · exact chain_foldl_balance_le address bc.chain 0 (Nat.zero_le _)

/-- Helper: a non-coinbase transaction with an empty signature is invalid. -/
theorem unsigned_noncoinbase_invalid (crypto : String → String → String → Bool)
    (digest : String → String) (tx : Transaction)
    (hcb : tx.sender ≠ coinbaseSender) (hsig : tx.signature = "") :
    Transaction.is_valid crypto digest tx = false := by
  simp [Transaction.is_valid, hcb, hsig]

/-- Claim C6: `add_transaction` leaves the ledger unchanged when the transaction
is invalid, or when its sender is not the coinbase sentinel and its signature
is empty (that second condition already implies invalidity, which is why the
source's single `is_valid` test realises both rejection clauses); otherwise it
appends the transaction to the pending pool and changes nothing else.  The
stated outcome is a function of the transaction alone, never of any balance. -/
theorem add_transaction_gate (crypto : String → String → String → Bool)
    (digest : String → String) (bc : Blockchain) (tx : Transaction) :
    ((Transaction.is_valid crypto digest tx = false ∨
        (tx.sender ≠ coinbaseSender ∧ tx.signature = "")) →
      Blockchain.add_transaction crypto digest bc tx = bc) ∧
    (Transaction.is_valid crypto digest tx = true →
      Blockchain.add_transaction crypto digest bc tx =
        { bc with pending_transactions := bc.pending_transactions ++ [tx] }) := by
  constructor
  · intro h
    have hv : Transaction.is_valid crypto digest tx = false := by
      rcases h with h | ⟨hcb, hsig⟩
      · exact h
      · exact unsigned_noncoinbase_invalid crypto digest tx hcb hsig
    simp [Blockchain.add_transaction, hv]
  · intro hv
    simp [Blockchain.add_transaction, hv]

/-- Witness for `add_transaction_gate`: the valid coinbase-style transaction
`txR` is appended, and an unsigned ordinary transaction is rejected without
mutation. -/
theorem add_transaction_gate_witness :
    Blockchain.add_transaction noVerify emptyDigest (Blockchain.mk [] 0 [] 100) txR =
      { Blockchain.mk [] 0 [] 100 with
        pending_transactions := (Blockchain.mk [] 0 [] 100).pending_transactions ++ [txR] } ∧
    Blockchain.add_transaction noVerify emptyDigest (Blockchain.mk [] 0 [] 100)
      (Transaction.mk "a" "b" 1 0 "" "") = Blockchain.mk [] 0 [] 100 :=
  ⟨(add_transaction_gate noVerify emptyDigest (Blockchain.mk [] 0 [] 100) txR).2 (by decide),
   (add_transaction_gate noVerify emptyDigest (Blockchain.mk [] 0 [] 100)
      (Transaction.mk "a" "b" 1 0 "" "")).1 (Or.inr ⟨by decide, rfl⟩)⟩

/-- Claim C8: the session handler's `AddTransaction` arm replies `Error` and
leaves the ledger untouched when the sender's balance is strictly below the
requested amount, and otherwise calls `add_transaction` and replies
`Success`. -/
theorem session_balance_gate (crypto : String → String → String → Bool)
    (digest : String → String) (bc : Blockchain) (tx : Transaction) :
    (bc.get_balance_of_address tx.sender < tx.amount →
      handle_add_transaction crypto digest bc tx = (bc, ServerReply.error)) ∧
    (¬ bc.get_balance_of_address tx.sender < tx.amount →
      handle_add_transaction crypto digest bc tx =
        (Blockchain.add_transaction crypto digest bc tx, ServerReply.success)) := by
  constructor <;> intro h <;> simp [handle_add_transaction, h]

/-- Witness for `session_balance_gate`: on a ledger with no funds, a transfer of
1 from an unfunded address is refused with `Error` and the state is returned
unchanged, while an amount-0 request takes the `Success` path. -/
theorem session_balance_gate_witness :
    handle_add_transaction noVerify emptyDigest (Blockchain.mk [] 0 [] 100)
      (Transaction.mk "a" "b" 1 0 "" "") = (Blockchain.mk [] 0 [] 100, ServerReply.error) ∧
    handle_add_transaction noVerify emptyDigest (Blockchain.mk [] 0 [] 100)
      (Transaction.mk "a" "b" 0 0 "" "") =
      (Blockchain.add_transaction noVerify emptyDigest (Blockchain.mk [] 0 [] 100)
        (Transaction.mk "a" "b" 0 0 "" ""), ServerReply.success) :=
  ⟨(session_balance_gate noVerify emptyDigest (Blockchain.mk [] 0 [] 100)
      (Transaction.mk "a" "b" 1 0 "" "")).1 (by decide),
   (session_balance_gate noVerify emptyDigest (Blockchain.mk [] 0 [] 100)
      (Transaction.mk "a" "b" 0 0 "" "")).2 (by decide)⟩

/-- Claim C9: any transaction carrying the coinbase sentinel sender, the
sentinel signature, a non-empty recipient and a positive amount passes
`is_valid` and is appended to the pending pool by `add_transaction` — the core
ledger places no restriction limiting such reward-style transactions to
ledger-created rewards. -/
theorem coinbase_style_tx_accepted (crypto : String → String → String → Bool)
    (digest : String → String) (bc : Blockchain) (tx : Transaction)
    (h1 : tx.sender = coinbaseSender) (h2 : tx.signature = coinbaseSig)
    (h3 : tx.recipient ≠ "") (h4 : 0 < tx.amount) :
    Blockchain.add_transaction crypto digest bc tx =
      { bc with pending_transactions := bc.pending_transactions ++ [tx] } := by
  have hv : Transaction.is_valid crypto digest tx = true := by
    simp [Transaction.is_valid, h1, h2, h3, Nat.pos_iff_ne_zero.mp h4]
  simp [Blockchain.add_transaction, hv]

/-- Witness for `coinbase_style_tx_accepted` at the concrete reward-style
transaction `txR` on a concrete ledger. -/
theorem coinbase_style_tx_accepted_witness :
    Blockchain.add_transaction noVerify sha256hex (Blockchain.mk [] 2 [] 100) txR =
      { Blockchain.mk [] 2 [] 100 with
        pending_transactions := (Blockchain.mk [] 2 [] 100).pending_transactions ++ [txR] } :=
  coinbase_style_tx_accepted noVerify sha256hex (Blockchain.mk [] 2 [] 100) txR
    rfl rfl (by decide) (by decide)

/-- Helper: if the block at some interior position fails its checks against its
stored predecessor, the whole chain scan reports false. -/
theorem chainOk_mid_false (crypto : String → String → String → Bool)
    (digest : String → String) (difficulty : Nat) :
    ∀ (prev : Block) (l1 : List Block) (x : Block) (l2 : List Block),
      blockOk crypto digest difficulty (l1.getLastD prev) x = false →
      chainOk crypto digest difficulty prev (l1 ++ x :: l2) = false := by
  intro prev l1
  induction l1 generalizing prev with
  | nil =>
    intro x l2 h
    rw [List.getLastD_nil] at h
    simp only [List.nil_append, chainOk]
    rw [h]
    simp
  | cons c t ih =>
    intro x l2 h
    rw [List.getLastD_cons] at h
    show (blockOk crypto digest difficulty prev c &&
      chainOk crypto digest difficulty c (t ++ x :: l2)) = false
    rw [ih c x l2 h]
    simp

/-- Helper: in a chain scan that succeeds, every interior block passes its
checks against its stored predecessor. -/
theorem chainOk_mid_true (crypto : String → String → String → Bool)
    (digest : String → String) (difficulty : Nat) :
    ∀ (prev : Block) (l1 : List Block) (x : Block) (l2 : List Block),
      chainOk crypto digest difficulty prev (l1 ++ x :: l2) = true →
      blockOk crypto digest difficulty (l1.getLastD prev) x = true := by
  intro prev l1
  induction l1 generalizing prev with
  | nil =>
    intro x l2 h
    rw [List.getLastD_nil]
    simp only [List.nil_append, chainOk, Bool.and_eq_true] at h
    exact h.1
  | cons c t ih =>
    intro x l2 h
    rw [List.getLastD_cons]
    simp only [List.cons_append, chainOk, Bool.and_eq_true] at h
    exact ih c x l2 h.2

/-- Claim C7 (amended): on a valid ledger, mutating a non-genesis block's stored
`hash` (to a different value) or its `previous_hash` (to a different value)
makes `is_chain_valid` false; mutating the genesis block's `hash` makes it
false whenever a successor block exists; but on a single-block ledger the
genesis block's `hash` can be changed arbitrarily and `is_chain_valid` stays
true, because the scan starts at index 1 and never checks the genesis block
itself. -/
theorem tamper_detection (crypto : String → String → String → Bool)
    (digest : String → String) (bc : Blockchain) (g : Block) (rest : List Block)
    (hchain : bc.chain = g :: rest)
    (hvalid : Blockchain.is_chain_valid crypto digest bc = true) :
    (∀ (l1 : List Block) (x : Block) (l2 : List Block) (h' : String),
        rest = l1 ++ x :: l2 → h' ≠ x.hash →
        Blockchain.is_chain_valid crypto digest
          { bc with chain := g :: l1 ++ { x with hash := h' } :: l2 } = false) ∧
    (∀ (l1 : List Block) (x : Block) (l2 : List Block) (p' : String),
        rest = l1 ++ x :: l2 → p' ≠ x.previous_hash →
        Blockchain.is_chain_valid crypto digest
          { bc with chain := g :: l1 ++ { x with previous_hash := p' } :: l2 } = false) ∧
    (∀ (h' : String), rest ≠ [] → h' ≠ g.hash →
        Blockchain.is_chain_valid crypto digest
          { bc with chain := { g with hash := h' } :: rest } = false) ∧
    (∀ (h' : String), rest = [] →
        Blockchain.is_chain_valid crypto digest
          { bc with chain := [{ g with hash := h' }] } = true) := by
  rw [Blockchain.is_chain_valid, hchain] at hvalid
  refine ⟨?_, ?_, ?_, ?_⟩
  · intro l1 x l2 h' hrest hne
    subst hrest
    have hx := chainOk_mid_true crypto digest bc.difficulty g l1 x l2 hvalid
    simp only [blockOk, Bool.and_eq_true, beq_iff_eq] at hx
    obtain ⟨⟨⟨hx1, hx2⟩, hx3⟩, hx4⟩ := hx
    rw [Blockchain.is_chain_valid]
    apply chainOk_mid_false
    simp only [blockOk]
    have hfirst : (Block.hash { x with hash := h' } ==
        Block.calculate_hash digest { x with hash := h' }) = false := by
      rw [calculate_hash_hash_irrel]
      simp only [beq_eq_false_iff_ne, ne_eq]
      exact fun hEq => hne (hEq.trans hx1.symm)
    rw [hfirst]
    simp
  · intro l1 x l2 p' hrest hne
    subst hrest
    have hx := chainOk_mid_true crypto digest bc.difficulty g l1 x l2 hvalid
    simp only [blockOk, Bool.and_eq_true, beq_iff_eq] at hx
    obtain ⟨⟨⟨hx1, hx2⟩, hx3⟩, hx4⟩ := hx
    rw [Blockchain.is_chain_valid]
    apply chainOk_mid_false
    simp only [blockOk]
    have hsecond : (Block.previous_hash { x with previous_hash := p' } ==
        Block.hash (l1.getLastD g)) = false := by
      simp only [beq_eq_false_iff_ne, ne_eq]
      exact fun hEq => hne (hEq.trans hx2.symm)
    rw [hsecond]
    simp
  · intro h' hrest hne
    cases rest with
    | nil => exact absurd rfl hrest
    | cons c t =>
      simp only [chainOk, Bool.and_eq_true] at hvalid
      have hc := hvalid.1
      simp only [blockOk, Bool.and_eq_true, beq_iff_eq] at hc
      obtain ⟨⟨⟨hc1, hc2⟩, hc3⟩, hc4⟩ := hc
      rw [Blockchain.is_chain_valid]
      simp only [chainOk, blockOk]
      have hsecond : (c.previous_hash == Block.hash { g with hash := h' }) = false := by
        simp only [beq_eq_false_iff_ne, ne_eq]
        exact fun hEq => hne (hc2.symm.trans hEq).symm
      rw [hsecond]
      simp
  · intro h' _
    rw [Blockchain.is_chain_valid]
    rfl

/-- A two-block ledger that is valid for the trivial digest model, used to
instantiate `tamper_detection`. -/
def gW : Block := Block.mk 0 0 [] "0" "" 0

/-- The successor block of `gW` in the concrete valid ledger below. -/
def bW : Block := Block.mk 1 0 [] "" "" 0

/-- The concrete two-block valid ledger `[gW, bW]` at difficulty 0. -/
def bcW2 : Blockchain := Blockchain.mk [gW, bW] 0 [] 100

/-- Witness for `tamper_detection`: on the concrete valid two-block ledger,
mutating the second block's hash, the second block's previous hash, or the
genesis hash each yield an invalid chain. -/
theorem tamper_detection_witness :
    Blockchain.is_chain_valid noVerify emptyDigest
      { bcW2 with chain := gW :: [] ++ { bW with hash := "x" } :: [] } = false ∧
    Blockchain.is_chain_valid noVerify emptyDigest
      { bcW2 with chain := gW :: [] ++ { bW with previous_hash := "x" } :: [] } = false ∧
    Blockchain.is_chain_valid noVerify emptyDigest
      { bcW2 with chain := { gW with hash := "x" } :: [bW] } = false :=
  ⟨(tamper_detection noVerify emptyDigest bcW2 gW [bW] rfl (by decide)).1
      [] bW [] "x" rfl (by decide),
   (tamper_detection noVerify emptyDigest bcW2 gW [bW] rfl (by decide)).2.1
      [] bW [] "x" rfl (by decide),
   (tamper_detection noVerify emptyDigest bcW2 gW [bW] rfl (by decide)).2.2.1
      "x" (by decide) (by decide)⟩

/-- A valid two-block ledger built by the real code at difficulty 0: genesis
plus a block added through `add_block` carrying the valid coinbase-style
transaction `txR`. -/
def validTwoChain : Option Blockchain :=
  (Blockchain.new sha256hex 0 0 0).bind (fun bc0 =>
    Blockchain.add_block sha256hex 0 bc0 (Block.new 1 "" [txR] 0))

set_option maxRecDepth 1000000 in
/-- Claim C7 counterexample: two undetected mutations.  On the ledger freshly
built by `Blockchain::new(0)` — one genesis block, `is_chain_valid` true —
overwriting the stored genesis hash with `"tampered"` (a different value)
leaves `is_chain_valid` true, because the validation loop starts at index 1
and never examines the genesis block.  And on a valid two-block ledger,
overwriting the `public_key` field of the contained coinbase-style transaction
leaves `is_chain_valid` true, because that field enters neither the block hash
nor the coinbase validity check. -/
theorem genesis_tamper_undetected :
    ((Blockchain.new sha256hex 0 0 0).map
      (fun bc => bc.is_chain_valid noVerify sha256hex) = some true ∧
    (Blockchain.new sha256hex 0 0 0).map
      (fun bc => Blockchain.is_chain_valid noVerify sha256hex
        { bc with chain := bc.chain.map (fun b => { b with hash := "tampered" }) }) =
      some true ∧
    (Blockchain.new sha256hex 0 0 0).map (fun bc => bc.chain.map Block.hash) ≠
      some ["tampered"]) ∧
    (validTwoChain.map (fun bc => bc.is_chain_valid noVerify sha256hex) = some true ∧
    validTwoChain.map
      (fun bc => Blockchain.is_chain_valid noVerify sha256hex
        { bc with chain := bc.chain.map (fun b =>
            { b with transactions :=
                b.transactions.map (fun t => { t with public_key := "tampered" }) }) }) =
      some true ∧
    txR.public_key ≠ "tampered") := by
  decide
